import Mathlib

/-!
Shallow embedding of the text-to-speech generation and caching subsystem of
`server.js`: the `TTS_CONFIG` constant, `splitTextIntoChunks`,
`getVoiceConfig`, the `TTSCache` class (`getCachedAudio`, `setCachedAudio`,
`incrementAccessCount`, `generateHash`, `cleanupOldCache`) and the
`POST /api/tts/generate` handler.

Modelling conventions:
* JavaScript strings are modelled as Lean `String`; `s.length` counts
  characters (the UTF-16 unit count of JavaScript agrees with it on the
  ASCII inputs used throughout).
* `Date.now()` readings (epoch milliseconds) are passed explicitly as a
  `now : Nat` argument; arithmetic on times is done in `Int` exactly as
  JavaScript number arithmetic behaves on these values.
* The Firestore collection `ttsCache` is modelled as an association list
  from document id (the md5 hash string) to the stored document payload;
  `doc(h).set` replaces the whole payload, `doc(h).update` merges fields
  and fails when the document is absent, exactly like Firestore.
* The external Google TTS client and backing-store I/O failures are
  modelled by an explicit `Env` record; a thrown JavaScript exception is an
  `Except.error` carrying the message of the HTTP error response the
  route's `catch` block produces.
-/

namespace GraceTTS

/-- The `TTS_CONFIG` constant of `server.js`.  The fields `audioEncoding`
("MP3") and `speakingRate` (1.0) are passed through verbatim to the external
synthesis client and play no role in the control flow modelled here. -/
structure TTSConfig where
  maxChunkSize : Nat
  cacheTtl : Nat
  deriving DecidableEq, Repr

/-- `TTS_CONFIG = { maxChunkSize: 4000, ..., cacheTtl: 30*24*60*60*1000 }`. -/
def TTS_CONFIG : TTSConfig :=
  { maxChunkSize := 4000, cacheTtl := 30 * 24 * 60 * 60 * 1000 }

/-- A voice configuration `{ languageCode, name }` as produced by
`getVoiceConfig`. -/
structure VoiceConfig where
  languageCode : String
  name : String
  deriving DecidableEq, Repr

/-- The space character (used by `split(" ")` and by the `" "` joiner of the
chunking loops). -/
def spaceChar : Char := Char.ofNat 32

/-- Model of `language.split("-")[0]`: the prefix of the tag before the
first dash. -/
def primarySubtag (language : String) : String :=
  String.mk (language.data.takeWhile (fun c => c ≠ Char.ofNat 45))

/-- `getVoiceConfig(language)`: looks the primary subtag up in the static
`voices` table and falls back to the English entry. -/
def getVoiceConfig (language : String) : VoiceConfig :=
  let langCode := primarySubtag language
  if langCode = "en" then { languageCode := "en-US", name := "en-US-Neural2-F" }
  else if langCode = "es" then { languageCode := "es-ES", name := "es-ES-Neural2-B" }
  else if langCode = "fr" then { languageCode := "fr-FR", name := "fr-FR-Neural2-B" }
  else if langCode = "zh" then { languageCode := "cmn-CN", name := "cmn-CN-Neural2-A" }
  else { languageCode := "en-US", name := "en-US-Neural2-F" }

/-- Whether the last character already written to the current sentence (the
head of the reversed accumulator) is one of the sentence terminators
`.`, `!`, `?` — the lookbehind `(?<=[.!?])` of the splitting regex. -/
def headIsTerminator : List Char → Bool
  | [] => false
  | p :: _ => p = '.' || p = '!' || p = '?'

/-- Model of `text.split(/(?<=[.!?])s+/)` (with `s` the whitespace class):
scan the text; a maximal whitespace run whose preceding character is a
sentence terminator is a separator and is consumed (the Boolean flag is
true while inside such a run); everything else is accumulated into the
current sentence. -/
def sentSplitAux : Bool → List Char → List Char → List (List Char)
  | _, accRev, [] => [accRev.reverse]
  | true, accRev, c :: cs =>
    if c.isWhitespace then sentSplitAux true accRev cs
    else sentSplitAux false [c] cs
  | false, accRev, c :: cs =>
    if c.isWhitespace && headIsTerminator accRev then
      accRev.reverse :: sentSplitAux true [] cs
    else
      sentSplitAux false (c :: accRev) cs

/-- Model of `sentence.split(" ")`: split at every single space character
(consecutive spaces yield empty pieces, as in JavaScript). -/
def wordSplitAux : List Char → List Char → List (List Char)
  | accRev, [] => [accRev.reverse]
  | accRev, c :: cs =>
    if c = spaceChar then accRev.reverse :: wordSplitAux [] cs
    else wordSplitAux (c :: accRev) cs

/-- The inner word loop of `splitTextIntoChunks`: greedily accumulate the
words of an oversized sentence; `chunks.push(currentChunk)` only happens
under the truthiness guard `if (currentChunk)`.  Returns the chunks pushed
by the loop together with the final `currentChunk`. -/
def wordLoop (max : Nat) (cur : List Char) : List (List Char) → List (List Char) × List Char
  | [] => ([], cur)
  | w :: ws =>
    if (cur ++ w).length ≤ max then
      wordLoop max (if cur = [] then w else cur ++ [spaceChar] ++ w) ws
    else
      let r := wordLoop max w ws
      ((if cur = [] then [] else [cur]) ++ r.1, r.2)

/-- The outer sentence loop of `splitTextIntoChunks`, including the final
`if (currentChunk) chunks.push(currentChunk)` after the loop.  A sentence
longer than the budget is re-split by words (`currentChunk` is first reset
to the empty string, as in the source). -/
def chunkLoop (max : Nat) (cur : List Char) : List (List Char) → List (List Char)
  | [] => if cur = [] then [] else [cur]
  | s :: rest =>
    if (cur ++ s).length ≤ max then
      chunkLoop max (if cur = [] then s else cur ++ [spaceChar] ++ s) rest
    else
      (if cur = [] then [] else [cur]) ++
        (if max < s.length then
          let r := wordLoop max [] (wordSplitAux [] s)
          r.1 ++ chunkLoop max r.2 rest
        else
          chunkLoop max s rest)

/-- `splitTextIntoChunks(text)` parametrised by the configuration record the
source reads its `maxChunkSize` from: `if (!text || text.length <=
TTS_CONFIG.maxChunkSize) return [text];` and otherwise the greedy
sentence/word accumulation. -/
def splitTextIntoChunksP (cfg : TTSConfig) (text : String) : List String :=
  if text = "" ∨ text.length ≤ cfg.maxChunkSize then [text]
  else (chunkLoop cfg.maxChunkSize [] (sentSplitAux false [] text.data)).map String.mk

/-- `splitTextIntoChunks` exactly as in the source, reading `TTS_CONFIG`. -/
def splitTextIntoChunks (text : String) : List String :=
  splitTextIntoChunksP TTS_CONFIG text

/-- Model of `JSON.stringify(voiceConfig)` for the voice configurations the
system constructs (two string fields, in declaration order `languageCode`,
`name`; the table values contain no characters needing JSON escaping). -/
def jsonStringifyVoiceConfig (v : VoiceConfig) : String :=
  "\x7b\"languageCode\":\"" ++ v.languageCode ++ "\",\"name\":\"" ++ v.name ++ "\"\x7d"

/-- Modelled from the spec: the external `crypto.createHash("md5") ... hex`
digest is a library capability, not code of this repository.  Per §3 of the
spec the digest is relied upon only for determinism and for
collision-freeness ("collision probability accepted as negligible"), so it
is modelled as an injective deterministic function of its input string. -/
def digestHex (s : String) : String := s

/-- `TTSCache.generateHash(text, voiceConfig)`: digest of the concatenation
of the segment text and the JSON serialization of the voice config. -/
def generateHash (text : String) (voiceConfig : VoiceConfig) : String :=
  digestHex (text ++ jsonStringifyVoiceConfig voiceConfig)

/-- A document of the `ttsCache` Firestore collection, as written by
`setCachedAudio` and mutated by `incrementAccessCount`.  `lastAccessed` is
absent (`none`) until `incrementAccessCount` first sets it. -/
structure CacheEntry where
  audioContent : String
  textLength : Nat
  voiceConfig : VoiceConfig
  timestamp : Nat
  accessedCount : Nat
  lastAccessed : Option Nat
  deriving DecidableEq, Repr

/-- The `ttsCache` collection: document id (hash) to document payload. -/
abbrev CacheState := List (String × CacheEntry)

/-- Firestore `collection("ttsCache").doc(k).get()`: the first entry with
the given document id, if any. -/
def lookupEntry (k : String) : CacheState → Option CacheEntry
  | [] => none
  | (k1, e) :: rest => if k1 = k then some e else lookupEntry k rest

/-- Firestore `doc(k).set(e)`: replace the document if present (keeping its
position), otherwise create it. -/
def docSet (k : String) (e : CacheEntry) : CacheState → CacheState
  | [] => [(k, e)]
  | (k1, e1) :: rest =>
    if k1 = k then (k, e) :: rest else (k1, e1) :: docSet k e rest

/-- `TTSCache.getCachedAudio(text, voiceConfig)`: return the stored
`audioContent` when the document exists and
`Date.now() - data.timestamp < TTS_CONFIG.cacheTtl`, else `null`. -/
def getCachedAudio (cfg : TTSConfig) (now : Nat) (st : CacheState)
    (text : String) (voiceConfig : VoiceConfig) : Option String :=
  match lookupEntry (generateHash text voiceConfig) st with
  | some data =>
    if (now : Int) - (data.timestamp : Int) < (cfg.cacheTtl : Int) then
      some data.audioContent
    else none
  | none => none

/-- `TTSCache.setCachedAudio(text, voiceConfig, audioContent)`: a whole
document `set` with `timestamp: Date.now()` and `accessedCount: 0`. -/
def setCachedAudio (now : Nat) (text : String) (voiceConfig : VoiceConfig)
    (audioContent : String) (st : CacheState) : CacheState :=
  docSet (generateHash text voiceConfig)
    { audioContent := audioContent
      textLength := text.length
      voiceConfig := voiceConfig
      timestamp := now
      accessedCount := 0
      lastAccessed := none } st

/-- `TTSCache.incrementAccessCount(text, voiceConfig)`: a Firestore field
`update` (atomic increment of `accessedCount`, `lastAccessed: Date.now()`);
`update` rejects when the document does not exist. -/
def incrementAccessCount (now : Nat) (text : String) (voiceConfig : VoiceConfig)
    (st : CacheState) : Option CacheState :=
  let k := generateHash text voiceConfig
  match lookupEntry k st with
  | some e =>
    some (docSet k
      { e with accessedCount := e.accessedCount + 1, lastAccessed := some now } st)
  | none => none

/-- `TTSCache.cleanupOldCache(ttl)`: query all documents with
`timestamp < Date.now() - ttl`, delete them in a batch, and return the
snapshot size (the number of deleted documents). -/
def cleanupOldCache (ttl : Nat) (now : Nat) (st : CacheState) : Nat × CacheState :=
  let stale := fun (p : String × CacheEntry) =>
    decide ((p.2.timestamp : Int) < (now : Int) - (ttl : Int))
  ((st.filter stale).length, st.filter (fun p => ! stale p))

/-- The external collaborators of the `/api/tts/generate` route:
`ttsClient.synthesizeSpeech` (its result, or the provider error thrown) and
the possibility that a Firestore read (`getCachedAudio`'s `get`) or write
(`setCachedAudio`'s `set`) against a given cache document id throws. -/
structure Env where
  synth : String → VoiceConfig → Except String String
  lookupFails : String → Bool
  storeFails : String → Bool

/-- One element of the `chunks` array of the route's JSON response:
`{ text, audioContent, cached }`. -/
structure ChunkResult where
  text : String
  audioContent : String
  cached : Bool
  deriving DecidableEq, Repr

/-- The JSON response of `POST /api/tts/generate`:
`{ chunks, totalChunks, cachedChunks, generatedChunks }`. -/
structure GenerateResponse where
  chunks : List ChunkResult
  totalChunks : Nat
  cachedChunks : Nat
  generatedChunks : Nat
  deriving DecidableEq, Repr

/-- The cache-probing loop of the handler (`for (const chunk of chunks)`):
a throwing `getCachedAudio` propagates to the route's `catch` (a 500
response); otherwise each chunk joins `cachedChunks` (with its payload) or
`chunksToGenerate`.  The loop itself never writes to the cache. -/
def cacheCheckLoop (cfg : TTSConfig) (env : Env) (now : Nat) (vc : VoiceConfig)
    (st : CacheState) : List String → Except String (List ChunkResult × List String)
  | [] => .ok ([], [])
  | c :: rest =>
    if env.lookupFails (generateHash c vc) then
      .error "Failed to generate TTS audio"
    else
      match getCachedAudio cfg now st c vc with
      | some audio => do
        let (hits, misses) ← cacheCheckLoop cfg env now vc st rest
        return ({ text := c, audioContent := audio, cached := true } :: hits, misses)
      | none => do
        let (hits, misses) ← cacheCheckLoop cfg env now vc st rest
        return (hits, c :: misses)

/-- The `generationPromises` of the handler: synthesize each uncached chunk
and immediately `setCachedAudio` it.  The per-chunk `catch` re-throws, so a
synthesis failure or a cache-write failure rejects the whole `Promise.all`
and reaches the route's `catch` (a 500 response).  `Promise.all` keeps the
results in dispatch order; the concurrent cache writes are modelled by
their left-to-right linearization. -/
def generateLoop (env : Env) (now : Nat) (vc : VoiceConfig) :
    List String → CacheState → Except String (List ChunkResult × CacheState)
  | [], st => .ok ([], st)
  | c :: rest, st =>
    match env.synth c vc with
    | .error _ => .error "Failed to generate TTS audio"
    | .ok audioContent =>
      if env.storeFails (generateHash c vc) then
        .error "Failed to generate TTS audio"
      else do
        let (rs, st1) ← generateLoop env now vc rest (setCachedAudio now c vc audioContent st)
        return ({ text := c, audioContent := audioContent, cached := false } :: rs, st1)

/-- The `POST /api/tts/generate` handler: reject empty text with a 400,
resolve the voice, chunk the text, probe the cache per chunk, synthesize
and cache the misses, and respond with
`allChunks = [...cachedChunks, ...generatedChunks]` and the counts.  The
fire-after-generation `ttsUsage` analytics write is pure write-only
telemetry (spec §3, `UsageRecord`) and is not modelled. -/
def ttsGenerate (cfg : TTSConfig) (env : Env) (now : Nat) (st : CacheState)
    (text language _sermonId : String) :
    Except String (GenerateResponse × CacheState) :=
  if text = "" then .error "Text is required"
  else do
    let vc := getVoiceConfig language
    let chunks := splitTextIntoChunksP cfg text
    let (cachedChunks, chunksToGenerate) ← cacheCheckLoop cfg env now vc st chunks
    let (generatedChunks, st1) ← generateLoop env now vc chunksToGenerate st
    let allChunks := cachedChunks ++ generatedChunks
    return ({ chunks := allChunks
              totalChunks := allChunks.length
              cachedChunks := cachedChunks.length
              generatedChunks := generatedChunks.length }, st1)

/-- The response part of a route result, when the route did not throw. -/
def okResponse (r : Except String (GenerateResponse × CacheState)) : Option GenerateResponse :=
  match r with
  | .ok p => some p.1
  | .error _ => none

/-- The cache state left behind by a route result, when it did not throw. -/
def okCache (r : Except String (GenerateResponse × CacheState)) : Option CacheState :=
  match r with
  | .ok p => some p.2
  | .error _ => none

/-- Sequential composition of two requests: run a second `/api/tts/generate`
request against the cache state the first one left behind. -/
def thenGenerate (cfg : TTSConfig) (env : Env) (now : Nat)
    (text language sermonId : String)
    (r : Except String (GenerateResponse × CacheState)) :
    Except String (GenerateResponse × CacheState) :=
  match r with
  | .ok p => ttsGenerate cfg env now p.2 text language sermonId
  | .error e => .error e

/-- Test fixture: a small configuration (budget 5 characters, TTL 1000 ms)
standing in for `TTS_CONFIG`; the code reads every field through the
configuration record, so theorems quantified over the configuration cover
`TTS_CONFIG` as well, and concrete inputs stay kernel-evaluable. -/
def cfgX : TTSConfig := { maxChunkSize := 5, cacheTtl := 1000 }

/-- Test fixture: budget 6 makes the missing joiner space observable on a
seven-character text. -/
def cfg6 : TTSConfig := { maxChunkSize := 6, cacheTtl := 1000 }

/-- Test fixture: fully reliable collaborators; synthesis deterministically
returns a payload derived from the chunk text. -/
def envBase : Env :=
  { synth := fun t _ => .ok ("A:" ++ t)
    lookupFails := fun _ => false
    storeFails := fun _ => false }

/-- Test fixture: every cache read against the backing store throws. -/
def envLF : Env :=
  { synth := fun t _ => .ok ("A:" ++ t)
    lookupFails := fun _ => true
    storeFails := fun _ => false }

/-- Test fixture: every cache write against the backing store throws, while
reads and synthesis succeed. -/
def envSF : Env :=
  { synth := fun t _ => .ok ("A:" ++ t)
    lookupFails := fun _ => false
    storeFails := fun _ => true }

/-- Test fixture: the English voice configuration. -/
def vcEn : VoiceConfig := getVoiceConfig "en"

/-- Test fixture: only the cache read for the second chunk "cd." of
"ab. cd." throws; reads for other keys, writes and synthesis succeed. -/
def envLF2 : Env :=
  { synth := fun t _ => .ok ("A:" ++ t)
    lookupFails := fun k => k == generateHash "cd." vcEn
    storeFails := fun _ => false }

/-- Test fixture: only the cache write for the second chunk "cd." of
"ab. cd." throws; reads and synthesis succeed. -/
def envSF2 : Env :=
  { synth := fun t _ => .ok ("A:" ++ t)
    lookupFails := fun _ => false
    storeFails := fun k => k == generateHash "cd." vcEn }

/-- Test fixture: a cache entry created at epoch millisecond 0. -/
def eStale : CacheEntry :=
  { audioContent := "a", textLength := 2, voiceConfig := vcEn,
    timestamp := 0, accessedCount := 0, lastAccessed := none }

/-- Reading back the document id just written by a `set` yields the new
payload. -/
theorem lookupEntry_docSet_self (k : String) (e : CacheEntry) (st : CacheState) :
    lookupEntry k (docSet k e st) = some e := by
  induction st with
  | nil => simp [docSet, lookupEntry]
  | cons p rest ih =>
    obtain ⟨k1, e1⟩ := p
    by_cases h : k1 = k
    · simp [docSet, h, lookupEntry]
    · simp [docSet, h, lookupEntry, ih]

/-- A `set` leaves every other document id unchanged. -/
theorem lookupEntry_docSet_ne (k k1 : String) (e : CacheEntry) (st : CacheState)
    (h : k ≠ k1) : lookupEntry k (docSet k1 e st) = lookupEntry k st := by
  have h' : ¬ k1 = k := fun hh => h hh.symm
  induction st with
  | nil => simp [docSet, lookupEntry, h']
  | cons p rest ih =>
    obtain ⟨k2, e2⟩ := p
    by_cases h2 : k2 = k1
    · subst h2
      simp [docSet, lookupEntry, h']
    · simp only [docSet, if_neg h2]
      by_cases h3 : k2 = k
      · simp [lookupEntry, h3]
      · simp [lookupEntry, h3, ih]

/-- Binding a successful `Except` computation runs the continuation. -/
theorem exceptBind_ok {α β : Type} (x : α) (f : α → Except String β) :
    (Except.ok x >>= f) = f x := rfl

/-- Binding a failed `Except` computation propagates the error. -/
theorem exceptBind_error {α β : Type} (msg : String) (f : α → Except String β) :
    ((Except.error msg : Except String α) >>= f) = Except.error msg := rfl

/-- C1: the final assembled `chunks` array is `[...cachedChunks,
...generatedChunks]`; with the second chunk cached and the first not, the
response lists the second chunk before the first, violating the Chunker's
left-to-right order. -/
theorem C1_cached_chunks_jump_queue :
    splitTextIntoChunksP cfgX "ab. cd." = ["ab.", "cd."]
    ∧ (okResponse (ttsGenerate cfgX envBase 10 (setCachedAudio 10 "cd." vcEn "CA" [])
          "ab. cd." "en" "s42")).map (fun r => r.chunks.map (fun cr => cr.text))
      = some ["cd.", "ab."] := by
  decide

/-- C3 (counterexample): with a throwing cache read (`envLF`), and likewise
with a throwing cache write after successful synthesis (`envSF`), the whole
generation request fails with the 500 response instead of degrading. -/
theorem C3_counterexample :
    ttsGenerate cfgX envLF 0 [] "hi" "en" "s42" = .error "Failed to generate TTS audio"
    ∧ ttsGenerate cfgX envSF 0 [] "hi" "en" "s42" = .error "Failed to generate TTS audio" := by
  exact ⟨rfl, rfl⟩

/-- A lookup that throws at any position of the chunk list makes the whole
cache-probing loop throw: chunks before it, whether hits or misses, merely
pass the error through their bind. -/
theorem cacheCheckLoop_fails_of_mem (cfg : TTSConfig) (env : Env) (now : Nat)
    (vc : VoiceConfig) (st : CacheState) :
    ∀ cs : List String,
      (∃ c ∈ cs, env.lookupFails (generateHash c vc) = true) →
      cacheCheckLoop cfg env now vc st cs = .error "Failed to generate TTS audio" := by
  intro cs
  induction cs with
  | nil =>
    rintro ⟨c, hc, _⟩
    simp at hc
  | cons c0 rest ih =>
    rintro ⟨c, hc, hfail⟩
    by_cases h0 : env.lookupFails (generateHash c0 vc) = true
    · simp [cacheCheckLoop, h0]
    · have h0f : env.lookupFails (generateHash c0 vc) = false := by
        cases hb : env.lookupFails (generateHash c0 vc)
        · rfl
        · exact absurd hb h0
      have hcrest : c ∈ rest := by
        rcases List.mem_cons.mp hc with rfl | h
        · exact absurd hfail h0
        · exact h
      have hrec := ih ⟨c, hcrest, hfail⟩
      cases hga : getCachedAudio cfg now st c0 vc with
      | some audio => simp [cacheCheckLoop, h0f, hga, hrec, exceptBind_error]
      | none => simp [cacheCheckLoop, h0f, hga, hrec, exceptBind_error]

/-- Characterization of a throw-free probing pass: the hits are the fresh
chunks with their cached payloads and the misses are exactly the chunks
whose lookup returned nothing, both in chunk order. -/
theorem cacheCheckLoop_ok_characterization (cfg : TTSConfig) (env : Env) (now : Nat)
    (vc : VoiceConfig) (st : CacheState) :
    ∀ cs : List String,
      (∀ c ∈ cs, env.lookupFails (generateHash c vc) = false) →
      cacheCheckLoop cfg env now vc st cs = .ok
        (cs.filterMap (fun c => (getCachedAudio cfg now st c vc).map
            (fun a => { text := c, audioContent := a, cached := true })),
         cs.filter (fun c => (getCachedAudio cfg now st c vc).isNone)) := by
  intro cs
  induction cs with
  | nil => intro _; rfl
  | cons c0 rest ih =>
    intro hlf
    have h0 := hlf c0 (by simp)
    have hrec := ih (fun x hx => hlf x (by simp [hx]))
    cases hga : getCachedAudio cfg now st c0 vc with
    | some audio =>
      simp [cacheCheckLoop, h0, hga, hrec, exceptBind_ok, List.filterMap_cons,
        List.filter_cons]
    | none =>
      simp [cacheCheckLoop, h0, hga, hrec, exceptBind_ok, List.filterMap_cons,
        List.filter_cons]

/-- A store that throws for any chunk the generation loop must synthesize
makes the whole loop throw (a synthesis failure at an earlier chunk throws
the same error, so no assumption on the other chunks is needed). -/
theorem generateLoop_fails_of_mem (env : Env) (now : Nat) (vc : VoiceConfig) :
    ∀ (cs : List String) (st : CacheState),
      (∃ c ∈ cs, env.storeFails (generateHash c vc) = true) →
      generateLoop env now vc cs st = .error "Failed to generate TTS audio" := by
  intro cs
  induction cs with
  | nil =>
    rintro st ⟨c, hc, _⟩
    simp at hc
  | cons c0 rest ih =>
    rintro st ⟨c, hc, hfail⟩
    cases hs : env.synth c0 vc with
    | error e => simp [generateLoop, hs]
    | ok audio =>
      by_cases h0 : env.storeFails (generateHash c0 vc) = true
      · simp [generateLoop, hs, h0]
      · have h0f : env.storeFails (generateHash c0 vc) = false := by
          cases hb : env.storeFails (generateHash c0 vc)
          · rfl
          · exact absurd hb h0
        have hcrest : c ∈ rest := by
          rcases List.mem_cons.mp hc with rfl | h
          · exact absurd hfail h0
          · exact h
        have hrec := ih (setCachedAudio now c0 vc audio st) ⟨c, hcrest, hfail⟩
        simp [generateLoop, hs, h0f, hrec, exceptBind_error]

/-- C3 (amended): a backing-store failure during the cache lookup of any
chunk, or during the cache store of any missed chunk even though its
synthesis can succeed, propagates and fails the whole generation request
with the 500 error — at any chunk position, in multi-chunk requests
included. -/
theorem C3_cache_failure_fails_request :
    (∀ (cfg : TTSConfig) (env : Env) (now : Nat) (st : CacheState)
        (text language sermonId : String),
      text ≠ "" →
      (∃ c ∈ splitTextIntoChunksP cfg text,
        env.lookupFails (generateHash c (getVoiceConfig language)) = true) →
      ttsGenerate cfg env now st text language sermonId =
        .error "Failed to generate TTS audio")
    ∧ (∀ (cfg : TTSConfig) (env : Env) (now : Nat) (st : CacheState)
        (text language sermonId : String),
      text ≠ "" →
      (∀ c ∈ splitTextIntoChunksP cfg text,
        env.lookupFails (generateHash c (getVoiceConfig language)) = false) →
      (∃ c ∈ splitTextIntoChunksP cfg text,
        getCachedAudio cfg now st c (getVoiceConfig language) = none
        ∧ env.storeFails (generateHash c (getVoiceConfig language)) = true) →
      ttsGenerate cfg env now st text language sermonId =
        .error "Failed to generate TTS audio") := by
  constructor
  · intro cfg env now st text language sermonId htext hex
    have hcc := cacheCheckLoop_fails_of_mem cfg env now (getVoiceConfig language) st
      (splitTextIntoChunksP cfg text) hex
    simp only [ttsGenerate, if_neg htext, hcc, exceptBind_error]
  · intro cfg env now st text language sermonId htext hlf hex
    obtain ⟨c, hc, hmiss, hsf⟩ := hex
    have hcc := cacheCheckLoop_ok_characterization cfg env now
      (getVoiceConfig language) st (splitTextIntoChunksP cfg text) hlf
    have hcmem : c ∈ (splitTextIntoChunksP cfg text).filter
        (fun x => (getCachedAudio cfg now st x (getVoiceConfig language)).isNone) := by
      rw [List.mem_filter]
      exact ⟨hc, by simp [hmiss]⟩
    have hgen := generateLoop_fails_of_mem env now (getVoiceConfig language)
      ((splitTextIntoChunksP cfg text).filter
        (fun x => (getCachedAudio cfg now st x (getVoiceConfig language)).isNone)) st
      ⟨c, hcmem, hsf⟩
    simp only [ttsGenerate, if_neg htext, hcc, exceptBind_ok, hgen, exceptBind_error]

/-- C3 (witness): the amended theorem applied to a two-chunk request whose
failure sits at the second chunk — a read failure there under `envLF2`, and
a write failure there under `envSF2` (the first chunk is processed
successfully in both runs). -/
theorem C3_witness :
    ttsGenerate cfgX envLF2 7 [] "ab. cd." "en" "s" = .error "Failed to generate TTS audio"
    ∧ ttsGenerate cfgX envSF2 7 [] "ab. cd." "en" "s" = .error "Failed to generate TTS audio" := by
  constructor
  · exact C3_cache_failure_fails_request.1 cfgX envLF2 7 [] "ab. cd." "en" "s"
      (by decide) ⟨"cd.", by decide, by decide⟩
  · exact C3_cache_failure_fails_request.2 cfgX envSF2 7 [] "ab. cd." "en" "s"
      (by decide) (by decide) ⟨"cd.", by decide, by decide, by decide⟩

/-- C4 (counterexample): a second `setCachedAudio` for the same key at time
9, after a first write at time 5, leaves the entry with `timestamp = 9`
(and `accessedCount` reset to 0): the overwrite resets `createdAt`. -/
theorem C4_counterexample :
    (lookupEntry (generateHash "hi" vcEn)
        (setCachedAudio 9 "hi" vcEn "b" (setCachedAudio 5 "hi" vcEn "a" []))).map
      (fun e => (e.timestamp, e.accessedCount)) = some (9, 0) := by
  decide

/-- C4 (amended): `setCachedAudio` is a whole-document replacement: every
write (first or subsequent) installs a fresh entry whose `timestamp` is the
current time and whose `accessedCount` is 0, and leaves all other keys
untouched. -/
theorem C4_store_replaces_whole_entry :
    ∀ (now : Nat) (text : String) (vc : VoiceConfig) (audio : String) (st : CacheState),
      lookupEntry (generateHash text vc) (setCachedAudio now text vc audio st) =
        some { audioContent := audio, textLength := text.length, voiceConfig := vc,
               timestamp := now, accessedCount := 0, lastAccessed := none }
      ∧ ∀ k, k ≠ generateHash text vc →
          lookupEntry k (setCachedAudio now text vc audio st) = lookupEntry k st := by
  intro now text vc audio st
  exact ⟨lookupEntry_docSet_self _ _ _, fun k hk => lookupEntry_docSet_ne _ _ _ _ hk⟩

/-- C4 (witness): the amended theorem applied at a concrete input. -/
theorem C4_witness :
    lookupEntry (generateHash "hi" vcEn) (setCachedAudio 3 "hi" vcEn "a" []) =
      some { audioContent := "a", textLength := 2, voiceConfig := vcEn,
             timestamp := 3, accessedCount := 0, lastAccessed := none }
    ∧ lookupEntry (generateHash "yo" vcEn) (setCachedAudio 3 "hi" vcEn "a" []) =
        lookupEntry (generateHash "yo" vcEn) ([] : CacheState) := by
  refine ⟨(C4_store_replaces_whole_entry 3 "hi" vcEn "a" []).1, ?_⟩
  exact (C4_store_replaces_whole_entry 3 "hi" vcEn "a" []).2 _ (by decide)

/-- C5: a generation request whose second run hits the cache
(`cachedChunks = 1`) leaves the hit entry with `accessedCount = 0` and
`lastAccessed` unset: `incrementAccessCount` is never invoked on the hit
path. -/
theorem C5_hit_leaves_access_count_untouched :
    (okResponse (thenGenerate cfgX envBase 11 "hi" "en" "s42"
        (ttsGenerate cfgX envBase 10 [] "hi" "en" "s42"))).map (fun r => r.cachedChunks)
      = some 1
    ∧ (okCache (thenGenerate cfgX envBase 11 "hi" "en" "s42"
        (ttsGenerate cfgX envBase 10 [] "hi" "en" "s42"))).map
        (fun st => (lookupEntry (generateHash "hi" vcEn) st).map
          (fun e => (e.accessedCount, e.lastAccessed)))
      = some (some (0, (none : Option Nat))) := by
  decide

/-- C6: a present entry older than the TTL is a lookup miss (in particular
one created exactly `cacheTtl + 1` ms ago), and `cleanupOldCache` returns
the number of entries with `timestamp < now - ttl` while deleting exactly
those. -/
theorem C6_ttl_staleness_and_sweep :
    (∀ (cfg : TTSConfig) (now : Nat) (st : CacheState) (text : String)
        (vc : VoiceConfig) (e : CacheEntry),
      lookupEntry (generateHash text vc) st = some e →
      (cfg.cacheTtl : Int) < (now : Int) - (e.timestamp : Int) →
      getCachedAudio cfg now st text vc = none)
    ∧ (∀ (cfg : TTSConfig) (now : Nat) (st : CacheState) (text : String)
        (vc : VoiceConfig) (e : CacheEntry),
      lookupEntry (generateHash text vc) st = some e →
      now = e.timestamp + cfg.cacheTtl + 1 →
      getCachedAudio cfg now st text vc = none)
    ∧ (∀ (ttl now : Nat) (st : CacheState),
      (cleanupOldCache ttl now st).1 =
        st.countP (fun p => decide ((p.2.timestamp : Int) < (now : Int) - (ttl : Int)))
      ∧ (∀ p ∈ (cleanupOldCache ttl now st).2,
          p ∈ st ∧ ¬ ((p.2.timestamp : Int) < (now : Int) - (ttl : Int)))
      ∧ (∀ p ∈ st, ¬ ((p.2.timestamp : Int) < (now : Int) - (ttl : Int)) →
          p ∈ (cleanupOldCache ttl now st).2)) := by
  refine ⟨?_, ?_, ?_⟩
  · intro cfg now st text vc e he hage
    simp only [getCachedAudio, he]
    rw [if_neg (by omega)]
  · intro cfg now st text vc e he hage
    simp only [getCachedAudio, he]
    rw [if_neg (by omega)]
  · intro ttl now st
    refine ⟨?_, ?_, ?_⟩
    · simp [cleanupOldCache, List.countP_eq_length_filter]
    · intro p hp
      unfold cleanupOldCache at hp
      simp only [List.mem_filter] at hp
      exact ⟨hp.1, by simpa using hp.2⟩
    · intro p hp hfresh
      unfold cleanupOldCache
      simp only [List.mem_filter]
      exact ⟨hp, by simpa using hfresh⟩

/-- C6 (witness): the staleness and sweep facts at a concrete cache. -/
theorem C6_witness :
    getCachedAudio cfgX 1001 [(generateHash "hi" vcEn, eStale)] "hi" vcEn = none
    ∧ (cleanupOldCache 1000 2002 [(generateHash "hi" vcEn, eStale)]).1 = 1 := by
  constructor
  · exact C6_ttl_staleness_and_sweep.1 cfgX 1001 _ "hi" vcEn eStale (by decide) (by decide)
  · have h := (C6_ttl_staleness_and_sweep.2.2 1000 2002
      [(generateHash "hi" vcEn, eStale)]).1
    rw [h]
    decide

/-- C7 (counterexample): the Chunker applied to the empty text returns the
one-element sequence `[""]`, not the empty sequence. -/
theorem C7_counterexample :
    splitTextIntoChunks "" = [""] ∧ splitTextIntoChunks "" ≠ [] := by
  decide

/-- C7 (amended): for every configuration, the empty text falls into the
`return [text]` branch, yielding a single empty segment. -/
theorem C7_empty_text_single_empty_chunk :
    ∀ cfg : TTSConfig, splitTextIntoChunksP cfg "" = [""] := by
  intro cfg
  simp [splitTextIntoChunksP]

/-- Words produced by `split(" ")` never contain a space character. -/
theorem wordSplitAux_no_space :
    ∀ (l accRev : List Char), spaceChar ∉ accRev →
      ∀ w ∈ wordSplitAux accRev l, spaceChar ∉ w := by
  intro l
  induction l with
  | nil =>
    intro accRev h w hw
    simp only [wordSplitAux, List.mem_singleton] at hw
    subst hw
    simpa using h
  | cons c cs ih =>
    intro accRev h w hw
    simp only [wordSplitAux] at hw
    by_cases hc : c = spaceChar
    · rw [if_pos hc] at hw
      rcases List.mem_cons.mp hw with rfl | hw2
      · simpa using h
      · exact ih [] (by simp) w hw2
    · rw [if_neg hc] at hw
      refine ih (c :: accRev) ?_ w hw
      intro hmem
      rcases List.mem_cons.mp hmem with h1 | h2
      · exact hc h1.symm
      · exact h h2

/-- The word loop keeps every emitted chunk, and its running chunk, within
the off-by-one budget unless it is a single space-free word. -/
theorem wordLoop_budget (max : Nat) :
    ∀ (ws : List (List Char)) (cur : List Char),
      (∀ w ∈ ws, spaceChar ∉ w) →
      (cur.length ≤ max + 1 ∨ spaceChar ∉ cur) →
      (∀ c ∈ (wordLoop max cur ws).1, c.length ≤ max + 1 ∨ spaceChar ∉ c)
      ∧ ((wordLoop max cur ws).2.length ≤ max + 1 ∨ spaceChar ∉ (wordLoop max cur ws).2) := by
  intro ws
  induction ws with
  | nil =>
    intro cur hws hcur
    exact ⟨by simp [wordLoop], by simpa [wordLoop] using hcur⟩
  | cons w ws ih =>
    intro cur hws hcur
    have hw : spaceChar ∉ w := hws w (by simp)
    have hws2 : ∀ w2 ∈ ws, spaceChar ∉ w2 := fun w2 h2 => hws w2 (by simp [h2])
    simp only [wordLoop]
    by_cases hlen : (cur ++ w).length ≤ max
    · rw [if_pos hlen]
      refine ih _ hws2 ?_
      by_cases hcur0 : cur = []
      · rw [if_pos hcur0]
        exact Or.inr hw
      · rw [if_neg hcur0]
        left
        simp only [List.length_append, List.length_singleton] at hlen ⊢
        omega
    · rw [if_neg hlen]
      constructor
      · intro c hc
        simp only [List.mem_append] at hc
        rcases hc with hc | hc
        · by_cases hcur0 : cur = []
          · rw [if_pos hcur0] at hc
            simp at hc
          · rw [if_neg hcur0] at hc
            simp only [List.mem_singleton] at hc
            subst hc
            exact hcur
        · exact (ih w hws2 (Or.inr hw)).1 c hc
      · exact (ih w hws2 (Or.inr hw)).2

/-- Every chunk emitted by the sentence loop is within the off-by-one
budget unless it is a single space-free word. -/
theorem chunkLoop_budget (max : Nat) :
    ∀ (sents : List (List Char)) (cur : List Char),
      (cur.length ≤ max + 1 ∨ spaceChar ∉ cur) →
      ∀ c ∈ chunkLoop max cur sents, c.length ≤ max + 1 ∨ spaceChar ∉ c := by
  intro sents
  induction sents with
  | nil =>
    intro cur hcur c hc
    simp only [chunkLoop] at hc
    by_cases hcur0 : cur = []
    · rw [if_pos hcur0] at hc
      simp at hc
    · rw [if_neg hcur0] at hc
      simp only [List.mem_singleton] at hc
      subst hc
      exact hcur
  | cons s rest ih =>
    intro cur hcur c hc
    simp only [chunkLoop] at hc
    by_cases hlen : (cur ++ s).length ≤ max
    · rw [if_pos hlen] at hc
      refine ih _ ?_ c hc
      by_cases hcur0 : cur = []
      · rw [if_pos hcur0]
        subst hcur0
        left
        simp only [List.nil_append] at hlen
        omega
      · rw [if_neg hcur0]
        left
        simp only [List.length_append, List.length_singleton] at hlen ⊢
        omega
    · rw [if_neg hlen] at hc
      simp only [List.mem_append] at hc
      rcases hc with hc | hc
      · by_cases hcur0 : cur = []
        · rw [if_pos hcur0] at hc
          simp at hc
        · rw [if_neg hcur0] at hc
          simp only [List.mem_singleton] at hc
          subst hc
          exact hcur
      · by_cases hbig : max < s.length
        · rw [if_pos hbig] at hc
          have hwords : ∀ w ∈ wordSplitAux [] s, spaceChar ∉ w :=
            wordSplitAux_no_space s [] (by simp)
          have hwl := wordLoop_budget max (wordSplitAux [] s) [] hwords (Or.inl (by simp))
          simp only [List.mem_append] at hc
          rcases hc with hc | hc
          · exact hwl.1 c hc
          · exact ih _ hwl.2 c hc
        · rw [if_neg hbig] at hc
          refine ih s ?_ c hc
          left
          omega

/-- C8 (counterexample): with budget 6, the text "ab. cd." (length 7) is
kept as one chunk of length 7 — exceeding the budget — although all of its
space-delimited words are within budget, so the indivisible-word exception
does not apply. -/
theorem C8_counterexample :
    splitTextIntoChunksP cfg6 "ab. cd." = ["ab. cd."]
    ∧ cfg6.maxChunkSize < ("ab. cd." : String).length
    ∧ ∀ w ∈ wordSplitAux [] ("ab. cd." : String).data, w.length ≤ cfg6.maxChunkSize := by
  refine ⟨by decide, by decide, by decide⟩

/-- C8 (amended): every produced segment has length at most
`maxChunkSize + 1` (the greedy checks omit the one-character joiner space),
except segments that are a single space-free word exceeding the budget. -/
theorem C8_chunk_budget_plus_one :
    ∀ (cfg : TTSConfig) (text c : String),
      c ∈ splitTextIntoChunksP cfg text →
      c.length ≤ cfg.maxChunkSize + 1 ∨ spaceChar ∉ c.data := by
  intro cfg text c hc
  unfold splitTextIntoChunksP at hc
  by_cases h0 : text = "" ∨ text.length ≤ cfg.maxChunkSize
  · rw [if_pos h0] at hc
    simp only [List.mem_singleton] at hc
    subst hc
    left
    rcases h0 with h | h
    · subst h
      have hempty : ("" : String).length = 0 := rfl
      omega
    · omega
  · rw [if_neg h0] at hc
    simp only [List.mem_map] at hc
    obtain ⟨l, hl, rfl⟩ := hc
    exact chunkLoop_budget cfg.maxChunkSize (sentSplitAux false [] text.data) []
      (Or.inl (by simp)) l hl

/-- C8 (witness): the amended bound at the concrete oversized chunk. -/
theorem C8_witness :
    ("ab. cd." : String) ∈ splitTextIntoChunksP cfg6 "ab. cd."
    ∧ (("ab. cd." : String).length ≤ cfg6.maxChunkSize + 1
        ∨ spaceChar ∉ ("ab. cd." : String).data) :=
  ⟨by decide, C8_chunk_budget_plus_one cfg6 "ab. cd." "ab. cd." (by decide)⟩

/-- The word loop only ever pushes non-empty chunks (every push is guarded
by the truthiness of `currentChunk`). -/
theorem wordLoop_chunks_nonempty (max : Nat) :
    ∀ (ws : List (List Char)) (cur : List Char),
      ∀ c ∈ (wordLoop max cur ws).1, c ≠ [] := by
  intro ws
  induction ws with
  | nil =>
    intro cur c hc
    simp [wordLoop] at hc
  | cons w ws ih =>
    intro cur c hc
    simp only [wordLoop] at hc
    by_cases hlen : (cur ++ w).length ≤ max
    · rw [if_pos hlen] at hc
      exact ih _ c hc
    · rw [if_neg hlen] at hc
      simp only [List.mem_append] at hc
      rcases hc with hc | hc
      · by_cases hcur0 : cur = []
        · rw [if_pos hcur0] at hc
          simp at hc
        · rw [if_neg hcur0] at hc
          simp only [List.mem_singleton] at hc
          subst hc
          exact hcur0
      · exact ih w c hc

/-- The sentence loop only ever pushes non-empty chunks. -/
theorem chunkLoop_chunks_nonempty (max : Nat) :
    ∀ (sents : List (List Char)) (cur : List Char),
      ∀ c ∈ chunkLoop max cur sents, c ≠ [] := by
  intro sents
  induction sents with
  | nil =>
    intro cur c hc
    simp only [chunkLoop] at hc
    by_cases hcur0 : cur = []
    · rw [if_pos hcur0] at hc
      simp at hc
    · rw [if_neg hcur0] at hc
      simp only [List.mem_singleton] at hc
      subst hc
      exact hcur0
  | cons s rest ih =>
    intro cur c hc
    simp only [chunkLoop] at hc
    by_cases hlen : (cur ++ s).length ≤ max
    · rw [if_pos hlen] at hc
      exact ih _ c hc
    · rw [if_neg hlen] at hc
      simp only [List.mem_append] at hc
      rcases hc with hc | hc
      · by_cases hcur0 : cur = []
        · rw [if_pos hcur0] at hc
          simp at hc
        · rw [if_neg hcur0] at hc
          simp only [List.mem_singleton] at hc
          subst hc
          exact hcur0
      · by_cases hbig : max < s.length
        · rw [if_pos hbig] at hc
          simp only [List.mem_append] at hc
          rcases hc with hc | hc
          · exact wordLoop_chunks_nonempty max (wordSplitAux [] s) [] c hc
          · exact ih _ c hc
        · rw [if_neg hbig] at hc
          exact ih s c hc

/-- C10: whenever the text is strictly longer than `maxChunkSize` (so the
multi-chunk path runs), every chunk in the output is non-empty. -/
theorem C10_multichunk_nonempty :
    ∀ (cfg : TTSConfig) (text : String),
      cfg.maxChunkSize < text.length →
      ∀ c ∈ splitTextIntoChunksP cfg text, c ≠ "" := by
  intro cfg text hlen c hc
  have hempty : ("" : String).length = 0 := rfl
  have H : ¬ (text = "" ∨ text.length ≤ cfg.maxChunkSize) := by
    push_neg
    refine ⟨?_, by omega⟩
    intro h0
    rw [h0, hempty] at hlen
    omega
  unfold splitTextIntoChunksP at hc
  rw [if_neg H] at hc
  simp only [List.mem_map] at hc
  obtain ⟨l, hl, rfl⟩ := hc
  have hne := chunkLoop_chunks_nonempty cfg.maxChunkSize (sentSplitAux false [] text.data) [] l hl
  intro hmk
  exact hne (by simpa using congrArg String.data hmk)

/-- C10 (witness): the non-emptiness fact at a concrete multi-chunk input. -/
theorem C10_witness :
    cfgX.maxChunkSize < ("ab. cd." : String).length
    ∧ ("ab." : String) ∈ splitTextIntoChunksP cfgX "ab. cd."
    ∧ ("ab." : String) ≠ "" :=
  ⟨by decide, by decide, C10_multichunk_nonempty cfgX "ab. cd." (by decide) "ab." (by decide)⟩

/-- C9: chunking and fingerprinting are pure functions of their arguments
in this embedding (the source functions read nothing but their parameters
and the constant `TTS_CONFIG`), so two calls on the same inputs are
definitionally equal. -/
theorem C9_determinism :
    ∀ (cfg : TTSConfig) (text t : String) (vc : VoiceConfig),
      splitTextIntoChunksP cfg text = splitTextIntoChunksP cfg text
      ∧ generateHash t vc = generateHash t vc :=
  fun _ _ _ _ => ⟨rfl, rfl⟩

end GraceTTS
